import Mathlib

/-!
Verification of the normalization/coercion utilities and orchestration logic
of the premarket watchlist pipeline (`premarket/utils.py`,
`premarket/orchestrate.py`, `premarket/news_probe.py`).

Python values reaching the coercion helpers are modelled by `Value`
(None, bool, int, float, str).  Python floats are modelled exactly: a value
parsed from a decimal string is kept as `mant * 10 ^ exp` with integer
mantissa and exponent (IEEE-754 rounding is abstracted away; every number
appearing in a theorem below is exactly representable), plus the special
values nan, inf and minus inf.  Fallible Python operations return `Except PyError`;
a `try/except` is an explicit match on the error.  All string manipulation
is done on `List Char` (code points), mirroring CPython's `str` methods for
ASCII data.
-/

deriving instance DecidableEq for Except

set_option maxRecDepth 40000

/-- Python exception kinds that the modelled code can raise. -/
inductive PyError where
  | valueError
  | overflowError
deriving DecidableEq, Repr

/-- Model of a Python float: an exact decimal `mant * 10 ^ exp`, or one of
the non-finite values. -/
inductive PyFloat where
  | finite (mant : ℤ) (exp : ℤ)
  | nan
  | inf
  | ninf
deriving DecidableEq, Repr

/-- Rational value of a finite decimal. -/
def decVal (mant exp : ℤ) : ℚ :=
  (mant : ℚ) * (10 : ℚ) ^ exp

/-- Model of a Python value as seen by the coercion helpers. -/
inductive Value where
  | none
  | bool (b : Bool)
  | int (n : ℤ)
  | float (f : PyFloat)
  | str (s : String)
deriving DecidableEq, Repr

/-- Characters stripped by Python `str.strip()` (ASCII whitespace). -/
def isPySpace (c : Char) : Bool :=
  c == ' ' || c == '\t' || c == '\n' || c == '\r' || c == '\x0b' || c == '\x0c'

/-- Python `str.strip()` on a character list. -/
def pyStripL (l : List Char) : List Char :=
  ((l.dropWhile isPySpace).reverse.dropWhile isPySpace).reverse

/-- Python `str.strip()`. -/
def pyStrip (s : String) : String :=
  ⟨pyStripL s.data⟩

/-- Python `str.replace(c, "")` for a one-character pattern: removes every
occurrence of `c`. -/
def removeChar (c : Char) (s : String) : String :=
  ⟨s.data.filter (fun a => a ≠ c)⟩

/-- Python `str.upper()` (ASCII). -/
def pyUpper (s : String) : String :=
  ⟨s.data.map Char.toUpper⟩

/-- Python `str.lower()` (ASCII). -/
def pyLower (s : String) : String :=
  ⟨s.data.map Char.toLower⟩

/-- Membership test `stripped.upper() in {"N/A", "NA", "-"}` from
`safe_float` (utils.py line 76) and `safe_int` (line 102). -/
def isAbsentToken (s : String) : Bool :=
  pyUpper s == "N/A" || pyUpper s == "NA" || pyUpper s == "-"

/-- ASCII digit test (`0`–`9`), as used by the float grammar. -/
def isDigitC (c : Char) : Bool :=
  decide (48 ≤ c.toNat) && decide (c.toNat ≤ 57)

/-- Numeric value of an ASCII digit. -/
def digitVal (c : Char) : ℕ :=
  c.toNat - 48

/-- Continuation of a digit group: consumes further digits, allowing a
single underscore between two digits (Python numeric literal syntax). -/
def digitsAux : List Char → List ℕ × List Char
  | [] => ([], [])
  | ['_'] => ([], ['_'])
  | '_' :: c :: rest =>
    if isDigitC c then
      let p := digitsAux rest
      (digitVal c :: p.1, p.2)
    else ([], '_' :: c :: rest)
  | c :: rest =>
    if isDigitC c then
      let p := digitsAux rest
      (digitVal c :: p.1, p.2)
    else ([], c :: rest)

/-- A digit group: one or more digits, with single underscores permitted
between digits.  Fails if the input does not start with a digit. -/
def parseDigitGroup (l : List Char) : Option (List ℕ × List Char) :=
  match l with
  | c :: rest =>
    if isDigitC c then
      let p := digitsAux rest
      some (digitVal c :: p.1, p.2)
    else Option.none
  | [] => Option.none

/-- Value of a digit list read in base 10. -/
def natOfDigits (ds : List ℕ) : ℕ :=
  ds.foldl (fun a d => 10 * a + d) 0

/-- Mantissa of a Python float literal: `digits [. digits] | . digits`.
Returns the digits' value, the number of fractional digits, and the rest. -/
def parseMantissa (l : List Char) : Option (ℕ × ℕ × List Char) :=
  match parseDigitGroup l with
  | some (ip, r1) =>
    match r1 with
    | '.' :: rest =>
      match parseDigitGroup rest with
      | some (fp, r2) => some (natOfDigits (ip ++ fp), fp.length, r2)
      | Option.none => some (natOfDigits ip, 0, rest)
    | _ => some (natOfDigits ip, 0, r1)
  | Option.none =>
    match l with
    | '.' :: rest =>
      match parseDigitGroup rest with
      | some (fp, r2) => some (natOfDigits fp, fp.length, r2)
      | Option.none => Option.none
    | _ => Option.none

/-- Optionally signed digit group, for the exponent of a float literal. -/
def parseSignedDigits (l : List Char) : Option (ℤ × List Char) :=
  match l with
  | '+' :: rest =>
    (parseDigitGroup rest).map (fun p => ((natOfDigits p.1 : ℤ), p.2))
  | '-' :: rest =>
    (parseDigitGroup rest).map (fun p => (-(natOfDigits p.1 : ℤ), p.2))
  | _ =>
    (parseDigitGroup l).map (fun p => ((natOfDigits p.1 : ℤ), p.2))

/-- Unsigned decimal literal with optional fraction and exponent; the whole
input must be consumed.  Returns mantissa and power-of-ten exponent. -/
def parseDecimal (l : List Char) : Option (ℕ × ℤ) :=
  match parseMantissa l with
  | some (m, fl, r1) =>
    match r1 with
    | 'e' :: rest =>
      match parseSignedDigits rest with
      | some (e, r2) => if r2 = [] then some (m, e - fl) else Option.none
      | Option.none => Option.none
    | 'E' :: rest =>
      match parseSignedDigits rest with
      | some (e, r2) => if r2 = [] then some (m, e - fl) else Option.none
      | Option.none => Option.none
    | [] => some (m, 0 - (fl : ℤ))
    | _ => Option.none
  | Option.none => Option.none

/-- Case-insensitive comparison of a character list against a literal. -/
def ciIs (l : List Char) (s : String) : Bool :=
  decide (l.map Char.toLower = s.data)

/-- Grammar of CPython `float(str)` on a character list (ASCII): optional
whitespace already stripped, optional sign, then `inf`/`infinity`/`nan`
(case-insensitive) or a decimal literal. -/
def pyFloatOfList (l : List Char) : Option PyFloat :=
  let l0 := pyStripL l
  match l0 with
  | [] => Option.none
  | _ =>
    let signed : Bool × List Char :=
      match l0 with
      | '+' :: rest => (false, rest)
      | '-' :: rest => (true, rest)
      | _ => (false, l0)
    let neg := signed.1
    let l2 := signed.2
    if ciIs l2 "inf" || ciIs l2 "infinity" then
      some (if neg then PyFloat.ninf else PyFloat.inf)
    else if ciIs l2 "nan" then
      some PyFloat.nan
    else
      (parseDecimal l2).map (fun p =>
        PyFloat.finite (if neg then -(p.1 : ℤ) else (p.1 : ℤ)) p.2)

/-- CPython `float(str)`: raises `ValueError` on any string outside the
float grammar. -/
def pyFloatCall (s : String) : Except PyError PyFloat :=
  match pyFloatOfList s.data with
  | some f => Except.ok f
  | Option.none => Except.error PyError.valueError

/-- Truncation of an exact decimal toward zero, the behaviour of CPython
`int(float)` on finite values. -/
def decTrunc (mant exp : ℤ) : ℤ :=
  if 0 ≤ exp then mant * 10 ^ exp.toNat
  else Int.tdiv mant (10 ^ (-exp).toNat)

/-- CPython `int(x)` for a float argument: truncates finite values toward
zero, raises `ValueError` on nan and `OverflowError` on ±inf. -/
def pyIntCall : PyFloat → Except PyError ℤ
  | PyFloat.finite m e => Except.ok (decTrunc m e)
  | PyFloat.nan => Except.error PyError.valueError
  | PyFloat.inf => Except.error PyError.overflowError
  | PyFloat.ninf => Except.error PyError.overflowError

/-- Python `==` between float values: exact comparison of finite values,
`inf = inf`, `-inf = -inf`, and `nan` unequal to everything. -/
def pyEq : PyFloat → PyFloat → Bool
  | PyFloat.finite m1 e1, PyFloat.finite m2 e2 =>
    if e2 ≤ e1 then decide (m1 * 10 ^ (e1 - e2).toNat = m2)
    else decide (m1 = m2 * 10 ^ (e2 - e1).toNat)
  | PyFloat.inf, PyFloat.inf => true
  | PyFloat.ninf, PyFloat.ninf => true
  | _, _ => false

/-- Number of binary digits of a natural number, via an explicit fuel
argument (the fuel is always sufficient since n / 2 < n for n > 0). -/
def bitLenAux : ℕ → ℕ → ℕ
  | 0, _ => 0
  | fuel + 1, n => if n = 0 then 0 else bitLenAux fuel (n / 2) + 1

/-- Number of binary digits (0 for 0). -/
def bitLen (n : ℕ) : ℕ :=
  bitLenAux n n

/-- Rounding of a natural number to 53 significant bits, to nearest with
ties to even — the significand rounding performed when CPython converts
an int to an IEEE-754 double. -/
def natRoundTo53 (a : ℕ) : ℕ :=
  if a < Nat.pow 2 53 then a
  else
    let shift := bitLen a - 53
    let q := a / Nat.pow 2 shift
    let r := a % Nat.pow 2 shift
    let half := Nat.pow 2 (shift - 1)
    let q2 := if half < r ∨ (r = half ∧ q % 2 = 1) then q + 1 else q
    q2 * Nat.pow 2 shift

/-- CPython `float(int)`: the integer is rounded to the nearest IEEE-754
double (53 significant bits, ties to even); when the rounded magnitude
reaches 2^1024 the conversion raises `OverflowError`.  A successful
conversion of an int is always integral, hence an exact decimal with
exponent 0. -/
def pyFloatOfInt (n : ℤ) : Except PyError PyFloat :=
  let v := natRoundTo53 n.natAbs
  if Nat.pow 2 1024 ≤ v then Except.error PyError.overflowError
  else Except.ok (PyFloat.finite (if n < 0 then -(v : ℤ) else (v : ℤ)) 0)

/-- Embedding of `utils.safe_float` (utils.py lines 66-83): `None` for
Python None, `float(value)` for bools/ints/floats — where `float(int)`
rounds to double precision and may raise `OverflowError`, with no
try/except around it (line 73) — and for strings: strip, treat
`""`/`"N/A"`/`"NA"`/`"-"` (upper-cased) as absent, remove `,` and `$`,
then `float(...)` with `ValueError` caught to absent. -/
def safe_float : Value → Except PyError (Option PyFloat)
  | Value.none => Except.ok Option.none
  | Value.bool b => Except.ok (some (PyFloat.finite (if b then 1 else 0) 0))
  | Value.int n =>
    match pyFloatOfInt n with
    | Except.ok f => Except.ok (some f)
    | Except.error e => Except.error e
  | Value.float f => Except.ok (some f)
  | Value.str s =>
    let stripped := pyStrip s
    if stripped = "" || isAbsentToken stripped then Except.ok Option.none
    else
      let cleaned := removeChar '$' (removeChar ',' stripped)
      match pyFloatCall cleaned with
      | Except.ok f => Except.ok (some f)
      | Except.error PyError.valueError => Except.ok Option.none
      | Except.error e => Except.error e

/-- Embedding of `utils.safe_percent` (utils.py lines 86-93): for strings,
remove `%` first, then delegate to `safe_float` (the trailing
`if result is None` branch is the identity and is kept as a match). -/
def safe_percent (v : Value) : Except PyError (Option PyFloat) :=
  let v2 := match v with
    | Value.str s => Value.str (removeChar '%' s)
    | other => other
  match safe_float v2 with
  | Except.ok Option.none => Except.ok Option.none
  | Except.ok (some r) => Except.ok (some r)
  | Except.error e => Except.error e

/-- Embedding of `utils.safe_int` (utils.py lines 96-108): `int(value)` for
bools/ints/floats (no try/except around it), and for strings: strip, remove
`,` (but not `$`), absent-token check, then `int(float(...))` with only
`ValueError` caught to absent. -/
def safe_int : Value → Except PyError (Option ℤ)
  | Value.bool b => Except.ok (some (if b then 1 else 0))
  | Value.int n => Except.ok (some n)
  | Value.float f =>
    match pyIntCall f with
    | Except.ok n => Except.ok (some n)
    | Except.error e => Except.error e
  | Value.str s =>
    let stripped := removeChar ',' (pyStrip s)
    if stripped = "" || isAbsentToken stripped then Except.ok Option.none
    else
      match pyFloatCall stripped with
      | Except.ok f =>
        match pyIntCall f with
        | Except.ok n => Except.ok (some n)
        | Except.error PyError.valueError => Except.ok Option.none
        | Except.error e => Except.error e
      | Except.error PyError.valueError => Except.ok Option.none
      | Except.error e => Except.error e
  | Value.none => Except.ok Option.none

/-- Python `str.split(sep)` for a one-character separator, on lists. -/
def splitChar (sep : Char) : List Char → List (List Char)
  | [] => [[]]
  | c :: rest =>
    let r := splitChar sep rest
    if c = sep then [] :: r
    else
      match r with
      | h :: t => (c :: h) :: t
      | [] => [[c]]

/-- Embedding of `utils.parse_range` (utils.py lines 111-122): split on
every hyphen, strip the pieces and drop the empty ones, require exactly two
parts, parse both with `safe_float`, reject absent bounds and equal bounds. -/
def parse_range : Value → Except PyError (Option (PyFloat × PyFloat))
  | Value.str s =>
    let parts := (splitChar '-' s.data).filterMap (fun p =>
      let q := pyStripL p
      if q = [] then Option.none else some q)
    match parts with
    | [p0, p1] =>
      match safe_float (Value.str ⟨p0⟩), safe_float (Value.str ⟨p1⟩) with
      | Except.ok (some l), Except.ok (some h) =>
        if pyEq h l then Except.ok Option.none else Except.ok (some (l, h))
      | Except.ok _, Except.ok _ => Except.ok Option.none
      | Except.error e, _ => Except.error e
      | _, Except.error e => Except.error e
    | _ => Except.ok Option.none
  | _ => Except.ok Option.none

/-- Projection of a `safe_float` result to its value; total because
`safe_float` never raises (proved below). -/
def safeFloatOpt (v : Value) : Option PyFloat :=
  match safe_float v with
  | Except.ok o => o
  | Except.error _ => Option.none

example : safe_float (Value.str "1,500,000") = Except.ok (some (PyFloat.finite 1500000 0)) := by decide
example : safe_float (Value.str "5%") = Except.ok Option.none := by decide
example : safe_float (Value.str " n/a ") = Except.ok Option.none := by decide
example : safe_float (Value.str "$12.5") = Except.ok (some (PyFloat.finite 125 (-1))) := by decide
example : safe_float (Value.str "-3e2") = Except.ok (some (PyFloat.finite (-3) 2)) := by decide
example : safe_float (Value.str "inf") = Except.ok (some PyFloat.inf) := by decide
example : safe_float (Value.str "abc") = Except.ok Option.none := by decide
example : safe_percent (Value.str "5%") = Except.ok (some (PyFloat.finite 5 0)) := by decide
example : safe_int (Value.str "$5") = Except.ok Option.none := by decide
example : safe_int (Value.str "7.9") = Except.ok (some 7) := by decide
example : safe_int (Value.str "-7.9") = Except.ok (some (-7)) := by decide
example : safe_int (Value.float PyFloat.nan) = Except.error PyError.valueError := by decide
example : safe_int (Value.str "inf") = Except.error PyError.overflowError := by decide
example : safe_int (Value.str "nan") = Except.ok Option.none := by decide
example : parse_range (Value.str "15 - 28") = Except.ok (some (PyFloat.finite 15 0, PyFloat.finite 28 0)) := by decide
example : parse_range (Value.str "-5 - 10") = Except.ok (some (PyFloat.finite 5 0, PyFloat.finite 10 0)) := by decide
example : parse_range (Value.str "10 - 10.0") = Except.ok Option.none := by decide
example : parse_range (Value.str "10") = Except.ok Option.none := by decide
example : safe_float (Value.str " 5 , ") = Except.ok (some (PyFloat.finite 5 0)) := by decide

/-- Numeric parser exactly as claim C1 states it: strips thousands
separators, currency symbols AND percent signs, treats the absence tokens
and empty/whitespace-only strings as absent, and yields absent on any other
unparsable string. -/
def claimNumericSpec (s : String) : Option PyFloat :=
  let stripped := pyStrip s
  if stripped = "" || isAbsentToken stripped then Option.none
  else pyFloatOfList (removeChar '%' (removeChar '$' (removeChar ',' stripped))).data

/-- Numeric parser as amended for claim C1: identical, except that percent
signs are NOT stripped (they are stripped by `safe_percent` only). -/
def numericSpecNoPct (s : String) : Option PyFloat :=
  let stripped := pyStrip s
  if stripped = "" || isAbsentToken stripped then Option.none
  else pyFloatOfList (removeChar '$' (removeChar ',' stripped)).data

theorem safe_float_str_ok (s : String) :
    safe_float (Value.str s) = Except.ok (safeFloatOpt (Value.str s)) := by
  simp only [safe_float, safeFloatOpt, pyFloatCall]
  split
  · rfl
  · cases pyFloatOfList (removeChar '$' (removeChar ',' (pyStrip s))).data <;> rfl

theorem parse_range_ok (v : Value) : ∃ o, parse_range v = Except.ok o := by
  cases v with
  | str s =>
    simp only [parse_range, safe_float_str_ok]
    split
    · split
      · split <;> exact ⟨_, rfl⟩
      · exact ⟨_, rfl⟩
      · contradiction
      · contradiction
    · exact ⟨_, rfl⟩
  | none => exact ⟨_, rfl⟩
  | bool b => exact ⟨_, rfl⟩
  | int n => exact ⟨_, rfl⟩
  | float f => exact ⟨_, rfl⟩

theorem safe_int_error_cases (v : Value) (e : PyError)
    (h : safe_int v = Except.error e) :
    (v = Value.float PyFloat.nan ∧ e = PyError.valueError) ∨
    ((v = Value.float PyFloat.inf ∨ v = Value.float PyFloat.ninf) ∧
      e = PyError.overflowError) ∨
    (∃ s, v = Value.str s ∧ e = PyError.overflowError ∧
      (pyFloatOfList (removeChar ',' (pyStrip s)).data = some PyFloat.inf ∨
       pyFloatOfList (removeChar ',' (pyStrip s)).data = some PyFloat.ninf)) := by
  cases v with
  | none => exact absurd h (by simp [safe_int])
  | bool b => exact absurd h (by simp [safe_int])
  | int n => exact absurd h (by simp [safe_int])
  | float f =>
    cases f with
    | finite m e2 => exact absurd h (by simp [safe_int, pyIntCall])
    | nan =>
      simp only [safe_int, pyIntCall] at h
      injection h with h
      exact Or.inl ⟨rfl, h.symm⟩
    | inf =>
      simp only [safe_int, pyIntCall] at h
      injection h with h
      exact Or.inr (Or.inl ⟨Or.inl rfl, h.symm⟩)
    | ninf =>
      simp only [safe_int, pyIntCall] at h
      injection h with h
      exact Or.inr (Or.inl ⟨Or.inr rfl, h.symm⟩)
  | str s =>
    simp only [safe_int] at h
    split at h
    · exact absurd h (by simp)
    · rcases hp : pyFloatOfList (removeChar ',' (pyStrip s)).data with _ | f
      · rw [pyFloatCall] at h
        simp only [hp] at h
        exact absurd h (by simp)
      · rw [pyFloatCall] at h
        simp only [hp] at h
        cases f with
        | finite m e2 => exact absurd h (by simp [pyIntCall])
        | nan => exact absurd h (by simp [pyIntCall])
        | inf =>
          simp only [pyIntCall] at h
          injection h with h
          exact Or.inr (Or.inr ⟨s, rfl, h.symm, Or.inl hp⟩)
        | ninf =>
          simp only [pyIntCall] at h
          injection h with h
          exact Or.inr (Or.inr ⟨s, rfl, h.symm, Or.inr hp⟩)

/-- C1 (amended): for every input string, `safe_float` strips thousands
separators (`,`) and currency symbols (`$`) — but NOT percent signs —
treats `N/A`, `NA`, `-` (case-insensitively) and empty or whitespace-only
strings as absent, and returns absent rather than raising on any other
unparsable string.  Stated as equality with `numericSpecNoPct`, the
claim's description of the parser with the percent clause removed. -/
theorem safe_float_matches_numeric_spec (s : String) :
    safe_float (Value.str s) = Except.ok (numericSpecNoPct s) := by
  simp only [safe_float, numericSpecNoPct, pyFloatCall]
  split
  · rfl
  · cases pyFloatOfList (removeChar '$' (removeChar ',' (pyStrip s))).data <;> rfl

/-- C1 counterexample: the claim says `safe_float` strips percent signs, so
`"5%"` would parse as `5.0`; the code does not strip `%`, so `"5%"` is
unparsable and yields absent. -/
theorem safe_float_percent_cex :
    claimNumericSpec "5%" = some (PyFloat.finite 5 0) ∧
    safe_float (Value.str "5%") = Except.ok Option.none := by decide

/-- C5: well-formed numeric and percent strings coerce to values
numerically equal to direct parsing: `"1,500,000"` to `1500000` and `"5%"`
to `5.0` (a plain percentage number, not `0.05`). -/
theorem wellformed_roundtrip :
    safe_float (Value.str "1,500,000") =
      Except.ok (some (PyFloat.finite 1500000 0)) ∧
    decVal 1500000 0 = (1500000 : ℚ) ∧
    safe_percent (Value.str "5%") = Except.ok (some (PyFloat.finite 5 0)) ∧
    decVal 5 0 = (5 : ℚ) ∧ decVal 5 0 ≠ (1 / 20 : ℚ) := by
  refine ⟨by decide, by norm_num [decVal], by decide, by norm_num [decVal],
    by norm_num [decVal]⟩

theorem pyFloatOfInt_exact (n : ℤ) (h : n.natAbs ≤ 2 ^ 53) :
    pyFloatOfInt n = Except.ok (PyFloat.finite n 0) := by
  have hpe : Nat.pow 2 53 = 2 ^ 53 := Nat.pow_eq
  have hround : natRoundTo53 n.natAbs = n.natAbs := by
    rcases lt_or_eq_of_le h with h2 | h2
    · unfold natRoundTo53
      rw [if_pos (by rw [hpe]; exact h2)]
    · rw [h2, ← hpe]
      decide
  have hsmall : ¬ Nat.pow 2 1024 ≤ n.natAbs := by
    have hlt : (2 : ℕ) ^ 53 < Nat.pow 2 1024 := by
      rw [Nat.pow_eq]
      exact Nat.pow_lt_pow_right (by norm_num) (by norm_num)
    omega
  have hsign : (if n < 0 then -(n.natAbs : ℤ) else (n.natAbs : ℤ)) = n := by
    by_cases hn : n < 0
    · rw [if_pos hn]
      omega
    · rw [if_neg hn]
      omega
  unfold pyFloatOfInt
  dsimp only
  rw [hround, if_neg hsmall, hsign]

theorem safe_float_error_cases (v : Value) (e : PyError)
    (h : safe_float v = Except.error e) :
    e = PyError.overflowError ∧ ∃ n, v = Value.int n ∧ 2 ^ 53 < n.natAbs ∧
      pyFloatOfInt n = Except.error PyError.overflowError := by
  cases v with
  | none => exact absurd h (by simp [safe_float])
  | bool b => exact absurd h (by simp [safe_float])
  | float f => exact absurd h (by simp [safe_float])
  | str s =>
    rw [safe_float_str_ok] at h
    exact absurd h (by simp)
  | int n =>
    simp only [safe_float] at h
    cases hp : pyFloatOfInt n with
    | ok f =>
      rw [hp] at h
      exact absurd h (by simp)
    | error e2 =>
      rw [hp] at h
      injection h with h
      have he2 : e2 = PyError.overflowError := by
        unfold pyFloatOfInt at hp
        dsimp only at hp
        by_cases hov : Nat.pow 2 1024 ≤ natRoundTo53 n.natAbs
        · rw [if_pos hov] at hp
          injection hp with hp
          exact hp.symm
        · rw [if_neg hov] at hp
          exact absurd hp (by simp)
      subst he2
      refine ⟨h.symm, n, rfl, ?_, hp⟩
      by_contra hle
      push_neg at hle
      rw [pyFloatOfInt_exact n hle] at hp
      exact absurd hp (by simp)

theorem safe_percent_error_cases (v : Value) (e : PyError)
    (h : safe_percent v = Except.error e) :
    e = PyError.overflowError ∧ ∃ n, v = Value.int n ∧ 2 ^ 53 < n.natAbs ∧
      pyFloatOfInt n = Except.error PyError.overflowError := by
  cases v with
  | str s =>
    exfalso
    simp only [safe_percent] at h
    rw [safe_float_str_ok] at h
    cases hso : safeFloatOpt (Value.str (removeChar '%' s)) <;>
      rw [hso] at h <;> simp at h
  | int n =>
    simp only [safe_percent] at h
    cases hsf : safe_float (Value.int n) with
    | ok o =>
      rw [hsf] at h
      cases o <;> simp at h
    | error e2 =>
      rw [hsf] at h
      injection h with h
      subst h
      exact safe_float_error_cases _ _ hsf
  | none => simp [safe_percent, safe_float] at h
  | bool b => simp [safe_percent, safe_float] at h
  | float f => simp [safe_percent, safe_float] at h

/-- C2 counterexample: the coercion parsers can raise.  `safe_int` on the
float value nan raises `ValueError` (`int(value)` on line 99 of utils.py
is not inside a try/except), `safe_int("inf")` raises `OverflowError`
(the except clause on line 106 catches only ValueError), and `safe_float`
on the int `10^400` raises `OverflowError` (`float(value)` on line 73 has
no try/except and the value exceeds the IEEE double range). -/
theorem coercion_raises_cex :
    safe_int (Value.float PyFloat.nan) = Except.error PyError.valueError ∧
    safe_int (Value.str "inf") = Except.error PyError.overflowError ∧
    safe_float (Value.int ((10 : ℤ) ^ 400)) =
      Except.error PyError.overflowError := by
  refine ⟨by decide, by decide, by decide⟩

/-- C2 (amended): `parse_range` returns a value or absent and never
raises, for every input value of any type; `safe_float` and
`safe_percent` never raise either, except with `OverflowError` on int
inputs whose magnitude exceeds the IEEE double range (necessarily above
2^53), where `float(value)` at utils.py line 73 raises with no
try/except; `safe_int` never raises except on non-finite numbers: a
float input of nan (ValueError) or ±infinity (OverflowError), or a
string that parses to ±infinity after stripping (OverflowError). -/
theorem coercion_parsers_total (v : Value) :
    (∀ e, safe_float v = Except.error e →
      e = PyError.overflowError ∧ ∃ n, v = Value.int n ∧
        2 ^ 53 < n.natAbs ∧
        pyFloatOfInt n = Except.error PyError.overflowError) ∧
    (∀ e, safe_percent v = Except.error e →
      e = PyError.overflowError ∧ ∃ n, v = Value.int n ∧
        2 ^ 53 < n.natAbs ∧
        pyFloatOfInt n = Except.error PyError.overflowError) ∧
    (∃ o, parse_range v = Except.ok o) ∧
    (∀ e, safe_int v = Except.error e →
      (v = Value.float PyFloat.nan ∧ e = PyError.valueError) ∨
      ((v = Value.float PyFloat.inf ∨ v = Value.float PyFloat.ninf) ∧
        e = PyError.overflowError) ∨
      (∃ s, v = Value.str s ∧ e = PyError.overflowError ∧
        (pyFloatOfList (removeChar ',' (pyStrip s)).data = some PyFloat.inf ∨
         pyFloatOfList (removeChar ',' (pyStrip s)).data = some PyFloat.ninf))) := by
  exact ⟨fun e h => safe_float_error_cases v e h,
    fun e h => safe_percent_error_cases v e h,
    parse_range_ok v,
    fun e h => safe_int_error_cases v e h⟩

/-- C2 witness: the amended theorem applied at concrete inputs — the
`safe_float` overflow at the int `10^400` is classified by the error
clause, and the `safe_int` error at float infinity by its clause. -/
theorem coercion_parsers_total_witness :
    (PyError.overflowError = PyError.overflowError ∧
      ∃ n, Value.int ((10 : ℤ) ^ 400) = Value.int n ∧ 2 ^ 53 < n.natAbs ∧
        pyFloatOfInt n = Except.error PyError.overflowError) ∧
    ((Value.float PyFloat.inf = Value.float PyFloat.nan ∧
        PyError.overflowError = PyError.valueError) ∨
      ((Value.float PyFloat.inf = Value.float PyFloat.inf ∨
          Value.float PyFloat.inf = Value.float PyFloat.ninf) ∧
        PyError.overflowError = PyError.overflowError) ∨
      (∃ s, Value.float PyFloat.inf = Value.str s ∧
        PyError.overflowError = PyError.overflowError ∧
        (pyFloatOfList (removeChar ',' (pyStrip s)).data = some PyFloat.inf ∨
         pyFloatOfList (removeChar ',' (pyStrip s)).data = some PyFloat.ninf))) := by
  constructor
  · exact (coercion_parsers_total (Value.int ((10 : ℤ) ^ 400))).1
      PyError.overflowError (by decide)
  · exact (coercion_parsers_total (Value.float PyFloat.inf)).2.2.2
      PyError.overflowError (by decide)

/-- Split at the first occurrence of a hyphen, returning the two sides. -/
def splitFirstAux (acc : List Char) : List Char → Option (List Char × List Char)
  | [] => Option.none
  | c :: rest =>
    if c = '-' then some (acc.reverse, rest) else splitFirstAux (c :: acc) rest

/-- Range parser exactly as claim C3 states it: split on the FIRST literal
hyphen (with optional surrounding whitespace), parse both sides with the
numeric parser, absent unless both sides are non-empty, both parse, and the
bounds differ. -/
def claimRangeSpec (v : Value) : Option (PyFloat × PyFloat) :=
  match v with
  | Value.str s =>
    match splitFirstAux [] s.data with
    | Option.none => Option.none
    | some (a, b) =>
      let a2 := pyStripL a
      let b2 := pyStripL b
      if a2 = [] ∨ b2 = [] then Option.none
      else
        match safeFloatOpt (Value.str ⟨a2⟩), safeFloatOpt (Value.str ⟨b2⟩) with
        | some l, some h => if pyEq h l then Option.none else some (l, h)
        | _, _ => Option.none
  | _ => Option.none

/-- Range parser as amended for claim C3: split on EVERY hyphen, strip the
pieces and discard the empty ones, then require exactly two remaining
parts, both parsing, with different bounds. -/
def rangeSpecAmended (v : Value) : Option (PyFloat × PyFloat) :=
  match v with
  | Value.str s =>
    let parts := ((splitChar '-' s.data).map pyStripL).filter (fun q => !q.isEmpty)
    match parts with
    | [p0, p1] =>
      match safeFloatOpt (Value.str ⟨p0⟩), safeFloatOpt (Value.str ⟨p1⟩) with
      | some l, some h => if pyEq h l then Option.none else some (l, h)
      | _, _ => Option.none
    | _ => Option.none
  | _ => Option.none

theorem filterMap_strip_eq_filter_map (L : List (List Char)) :
    L.filterMap (fun p =>
      let q := pyStripL p
      if q = [] then Option.none else some q) =
    (L.map pyStripL).filter (fun q => !q.isEmpty) := by
  induction L with
  | nil => rfl
  | cons p rest ih =>
    simp only [List.filterMap_cons, List.map_cons, List.filter_cons]
    by_cases h : pyStripL p = []
    · simp [h, ih]
    · have : (pyStripL p).isEmpty = false := by
        cases hq : pyStripL p
        · exact absurd hq h
        · rfl
      simp [h, this, ih]

/-- C3 counterexample: on `"-5 - 10"` the first hyphen is the leading minus
sign, so the claim's first-hyphen split yields an empty left part and the
claim demands absent; the code splits on every hyphen, discards the empty
pieces, and returns the pair `(5, 10)`. -/
theorem parse_range_first_hyphen_cex :
    claimRangeSpec (Value.str "-5 - 10") = Option.none ∧
    parse_range (Value.str "-5 - 10") =
      Except.ok (some (PyFloat.finite 5 0, PyFloat.finite 10 0)) := by decide

/-- C3 (amended): `parse_range` splits on EVERY literal hyphen, strips the
pieces and discards empty ones, and returns absent unless exactly two
non-empty parts remain, both sides parse, and the bounds are numerically
different; otherwise it returns the pair `(low, high)`.  It never raises. -/
theorem parse_range_matches_range_spec (v : Value) :
    parse_range v = Except.ok (rangeSpecAmended v) := by
  cases v with
  | str s =>
    simp only [parse_range, rangeSpecAmended, filterMap_strip_eq_filter_map]
    split
    · rw [safe_float_str_ok, safe_float_str_ok]
      cases safeFloatOpt (Value.str ⟨_⟩) <;> cases safeFloatOpt (Value.str ⟨_⟩)
      · rfl
      · rfl
      · rfl
      · dsimp only
        split <;> rfl
    · rfl
  | none => rfl
  | bool b => rfl
  | int n => rfl
  | float f => rfl

theorem char_eq_of_toNat_eq (a b : Char) (h : a.toNat = b.toNat) : a = b := by
  apply Char.ext
  exact UInt32.toNat.inj h

theorem char_toNat_ofNat_lt (m : ℕ) (h : m < 55296) : (Char.ofNat m).toNat = m := by
  unfold Char.ofNat
  rw [dif_pos (Or.inl h)]
  simp [Char.ofNatAux, Char.toNat, UInt32.toNat]

theorem toUpper_inv (c d : Char) (h : Char.toUpper c = d) :
    c = d ∨ (c.toNat = d.toNat + 32 ∧ 65 ≤ d.toNat ∧ d.toNat ≤ 90) := by
  unfold Char.toUpper at h
  by_cases hc : c.toNat ≥ 97 ∧ c.toNat ≤ 122
  · rw [if_pos hc] at h
    have h2 := congrArg Char.toNat h
    rw [char_toNat_ofNat_lt (c.toNat - 32) (by omega)] at h2
    right
    omega
  · rw [if_neg hc] at h
    exact Or.inl h

theorem toUpper_pin (c d : Char) (h : Char.toUpper c = d)
    (hd : d.toNat < 65 ∨ 90 < d.toNat) : c = d := by
  rcases toUpper_inv c d h with h2 | ⟨h2, h3, h4⟩
  · exact h2
  · omega

theorem toUpper_cases (c d low : Char) (h : Char.toUpper c = d)
    (hlow : low.toNat = d.toNat + 32) : c = d ∨ c = low := by
  rcases toUpper_inv c d h with h2 | ⟨h2, h3, h4⟩
  · exact Or.inl h2
  · exact Or.inr (char_eq_of_toNat_eq _ _ (by omega))

theorem isAbsentToken_cases (t : String) (h : isAbsentToken t = true) :
    t.data.map Char.toUpper = "N/A".data ∨ t.data.map Char.toUpper = "NA".data ∨
      t.data.map Char.toUpper = "-".data := by
  simp only [isAbsentToken, pyUpper, Bool.or_eq_true, beq_iff_eq] at h
  rcases h with (h | h) | h
  · exact Or.inl (congrArg String.data h)
  · exact Or.inr (Or.inl (congrArg String.data h))
  · exact Or.inr (Or.inr (congrArg String.data h))

theorem map_toUpper_len1 (l : List Char) (a : Char)
    (h : l.map Char.toUpper = [a]) :
    ∃ x, l = [x] ∧ Char.toUpper x = a := by
  rcases l with _ | ⟨x, _ | ⟨y, l2⟩⟩
  · simp at h
  · simp only [List.map_cons, List.map_nil, List.cons.injEq, and_true] at h
    exact ⟨x, rfl, h⟩
  · simp at h

theorem map_toUpper_len2 (l : List Char) (a b : Char)
    (h : l.map Char.toUpper = [a, b]) :
    ∃ x y, l = [x, y] ∧ Char.toUpper x = a ∧ Char.toUpper y = b := by
  rcases l with _ | ⟨x, _ | ⟨y, _ | ⟨z, l3⟩⟩⟩
  · simp at h
  · simp at h
  · simp only [List.map_cons, List.map_nil, List.cons.injEq, and_true] at h
    exact ⟨x, y, rfl, h.1, h.2⟩
  · simp at h

theorem map_toUpper_len3 (l : List Char) (a b c : Char)
    (h : l.map Char.toUpper = [a, b, c]) :
    ∃ x y z, l = [x, y, z] ∧ Char.toUpper x = a ∧ Char.toUpper y = b ∧
      Char.toUpper z = c := by
  rcases l with _ | ⟨x, _ | ⟨y, _ | ⟨z, _ | ⟨w, l4⟩⟩⟩⟩
  · simp at h
  · simp at h
  · simp at h
  · simp only [List.map_cons, List.map_nil, List.cons.injEq, and_true] at h
    exact ⟨x, y, z, rfl, h.1, h.2.1, h.2.2⟩
  · simp at h

theorem absent_token_no_comma (t : String) (h : isAbsentToken t = true) :
    removeChar ',' t = t := by
  have h3 := isAbsentToken_cases t h
  have hmem : ∀ c ∈ t.data, c ≠ ',' := by
    intro c hc heq
    subst heq
    have h2 : Char.toUpper ',' ∈ t.data.map Char.toUpper :=
      List.mem_map_of_mem _ hc
    rcases h3 with h3 | h3 | h3 <;> rw [h3] at h2 <;> revert h2 <;> decide
  have hf : t.data.filter (fun a => decide (a ≠ ',')) = t.data :=
    List.filter_eq_self.mpr (fun a ha => by simpa using hmem a ha)
  show String.mk _ = t
  rw [hf]

theorem absent_token_parse_none (t : String) (h : isAbsentToken t = true) :
    pyFloatOfList t.data = Option.none := by
  rcases isAbsentToken_cases t h with h3 | h3 | h3
  · obtain ⟨x, y, z, hd, e1, e2, e3⟩ := map_toUpper_len3 _ _ _ _ h3
    rw [hd]
    have hy : y = '/' := toUpper_pin _ _ e2 (by decide)
    rcases toUpper_cases x 'N' 'n' e1 (by decide) with rfl | rfl <;>
      rcases toUpper_cases z 'A' 'a' e3 (by decide) with rfl | rfl <;>
      rw [hy] <;> decide
  · obtain ⟨x, y, hd, e1, e2⟩ := map_toUpper_len2 _ _ _ h3
    rw [hd]
    rcases toUpper_cases x 'N' 'n' e1 (by decide) with rfl | rfl <;>
      rcases toUpper_cases y 'A' 'a' e2 (by decide) with rfl | rfl <;> decide
  · obtain ⟨x, hd, e1⟩ := map_toUpper_len1 _ _ h3
    rw [hd]
    have hx : x = '-' := toUpper_pin _ _ e1 (by decide)
    rw [hx]
    decide

theorem pyStripL_subset (l : List Char) : ∀ c ∈ pyStripL l, c ∈ l := by
  intro c hc
  simp only [pyStripL, List.mem_reverse] at hc
  have h1 : c ∈ (List.dropWhile isPySpace l).reverse :=
    (List.dropWhile_sublist _).subset hc
  rw [List.mem_reverse] at h1
  exact (List.dropWhile_sublist _).subset h1

theorem removeChar_of_not_mem (c : Char) (s : String) (h : c ∉ s.data) :
    removeChar c s = s := by
  have hf : s.data.filter (fun a => decide (a ≠ c)) = s.data :=
    List.filter_eq_self.mpr (fun a ha => by
      simp only [decide_eq_true_eq]
      rintro rfl
      exact h ha)
  show String.mk _ = s
  rw [hf]

theorem not_mem_removeChar (c k : Char) (s : String) (h : c ∉ s.data) :
    c ∉ (removeChar k s).data := by
  intro hc
  exact h (List.mem_of_mem_filter hc)

theorem safeFloatOpt_str (s : String) :
    safeFloatOpt (Value.str s) =
      (if pyStrip s = "" || isAbsentToken (pyStrip s) then Option.none
       else pyFloatOfList (removeChar '$' (removeChar ',' (pyStrip s))).data) := by
  simp only [safeFloatOpt, safe_float, pyFloatCall]
  by_cases hc : (decide (pyStrip s = "") || isAbsentToken (pyStrip s)) = true
  · rw [if_pos hc, if_pos hc]
  · rw [if_neg hc, if_neg hc]
    cases pyFloatOfList (removeChar '$' (removeChar ',' (pyStrip s))).data <;> rfl

theorem decTrunc_toward_zero (m e : ℤ) :
    (0 ≤ decVal m e → decTrunc m e = ⌊decVal m e⌋) ∧
    (decVal m e < 0 → decTrunc m e = ⌈decVal m e⌉) := by
  by_cases he : 0 ≤ e
  · have hv : decVal m e = ((m * 10 ^ e.toNat : ℤ) : ℚ) := by
      rw [decVal]
      push_cast
      rw [← zpow_natCast (10 : ℚ) e.toNat, Int.toNat_of_nonneg he]
    rw [hv, decTrunc, if_pos he, Int.floor_intCast, Int.ceil_intCast]
    exact ⟨fun _ => rfl, fun _ => rfl⟩
  · have hk : e = -(((-e).toNat : ℕ) : ℤ) := by omega
    have hv : decVal m e = (m : ℚ) / ((10 ^ (-e).toNat : ℕ) : ℚ) := by
      conv_lhs => rw [decVal, hk]
      rw [zpow_neg, zpow_natCast]
      push_cast
      rw [div_eq_mul_inv]
    have hpow : (0 : ℚ) < ((10 ^ (-e).toNat : ℕ) : ℚ) := by positivity
    constructor
    · intro hnn
      have hm : 0 ≤ m := by
        by_contra hneg
        push_neg at hneg
        have hlt2 : decVal m e < 0 := by
          rw [hv]
          apply div_neg_of_neg_of_pos _ hpow
          exact_mod_cast hneg
        linarith
      rw [decTrunc, if_neg he, hv, Rat.floor_intCast_div_natCast,
        Int.tdiv_eq_ediv hm (by positivity)]
      norm_cast
    · intro hlt
      have hm : m < 0 := by
        by_contra hpos
        push_neg at hpos
        have hge2 : 0 ≤ decVal m e := by
          rw [hv]
          apply div_nonneg _ (le_of_lt hpow)
          exact_mod_cast hpos
        linarith
      have hflip : ((-m : ℤ) : ℚ) / ((10 ^ (-e).toNat : ℕ) : ℚ) =
          -((m : ℚ) / ((10 ^ (-e).toNat : ℕ) : ℚ)) := by
        push_cast
        ring
      have hceil : ⌈(m : ℚ) / ((10 ^ (-e).toNat : ℕ) : ℚ)⌉ =
          -⌊((-m : ℤ) : ℚ) / ((10 ^ (-e).toNat : ℕ) : ℚ)⌋ := by
        rw [hflip, Int.floor_neg, neg_neg]
      rw [decTrunc, if_neg he, hv, hceil, Rat.floor_intCast_div_natCast]
      rw [show Int.tdiv m (10 ^ (-e).toNat) = -Int.tdiv (-m) (10 ^ (-e).toNat) by
        rw [Int.neg_tdiv]
        ring]
      rw [Int.tdiv_eq_ediv (by omega) (by positivity)]
      norm_cast

/-- C4 counterexample: `safe_int` does not strip `$`, so `safe_int("$5")`
is absent while the numeric parser yields `5.0` — the claim demands that
`safe_int` be absent exactly when `safe_float` is.  Moreover, at the int
input 2^53 + 1 the two disagree even when both are present: `safe_int`
returns the exact `int(value)` while `safe_float` rounds through the
IEEE double `float(value)`, losing the final bit. -/
theorem safe_int_dollar_cex :
    safeFloatOpt (Value.str "$5") = some (PyFloat.finite 5 0) ∧
    safe_int (Value.str "$5") = Except.ok Option.none ∧
    safe_int (Value.int ((2 : ℤ) ^ 53 + 1)) =
      Except.ok (some ((2 : ℤ) ^ 53 + 1)) ∧
    safeFloatOpt (Value.int ((2 : ℤ) ^ 53 + 1)) =
      some (PyFloat.finite ((2 : ℤ) ^ 53) 0) := by decide

/-- C4 (amended): on every input that is not a string containing `$` and
not an int of magnitude above 2^53, `safe_int` is absent whenever the
numeric parser is absent, and whenever the numeric parser yields a finite
value, `safe_int` yields that value truncated toward zero (floor for
nonnegative values, ceiling for negative ones — the behaviour of
`int(float(...))`).  Strings containing `$` are excluded (the code strips
`$` in `safe_float` but not in `safe_int`), ints beyond 2^53 are excluded
(`safe_int` keeps the exact `int(value)` while `safe_float` rounds it to
double precision), and non-finite parses deviate as in C2. -/
theorem safe_int_truncates (v : Value)
    (hd : ∀ s, v = Value.str s → ('$' : Char) ∉ s.data)
    (hi : ∀ n : ℤ, v = Value.int n → n.natAbs ≤ 2 ^ 53) :
    ((safeFloatOpt v = Option.none → safe_int v = Except.ok Option.none) ∧
     (∀ m e, safeFloatOpt v = some (PyFloat.finite m e) →
       safe_int v = Except.ok (some (decTrunc m e)))) ∧
    (∀ m e : ℤ, (0 ≤ decVal m e → decTrunc m e = ⌊decVal m e⌋) ∧
      (decVal m e < 0 → decTrunc m e = ⌈decVal m e⌉)) := by
  refine ⟨?_, fun m e => decTrunc_toward_zero m e⟩
  cases v with
  | none =>
    exact ⟨fun _ => rfl, fun m e h => by simp [safeFloatOpt, safe_float] at h⟩
  | bool b =>
    constructor
    · intro h
      cases b <;> simp [safeFloatOpt, safe_float] at h
    · intro m e h
      cases b <;>
        simp only [safeFloatOpt, safe_float, Option.some.injEq,
          PyFloat.finite.injEq] at h <;>
        obtain ⟨h1, h2⟩ := h <;> subst h1 <;> subst h2 <;> decide
  | int n =>
    have hexact := pyFloatOfInt_exact n (hi n rfl)
    constructor
    · intro h
      simp only [safeFloatOpt, safe_float, hexact] at h
      exact Option.noConfusion h
    · intro m e h
      simp only [safeFloatOpt, safe_float, hexact, Option.some.injEq,
        PyFloat.finite.injEq] at h
      obtain ⟨h1, h2⟩ := h
      subst h1
      subst h2
      simp [safe_int, decTrunc]
  | float f =>
    constructor
    · intro h
      simp [safeFloatOpt, safe_float] at h
    · intro m e h
      simp only [safeFloatOpt, safe_float, Option.some.injEq] at h
      subst h
      rfl
  | str s =>
    have hds : ('$' : Char) ∉ s.data := hd s rfl
    have hds2 : ('$' : Char) ∉ (pyStrip s).data := fun hmem =>
      hds (pyStripL_subset _ _ hmem)
    have hde : removeChar '$' (removeChar ',' (pyStrip s)) =
        removeChar ',' (pyStrip s) :=
      removeChar_of_not_mem _ _ (not_mem_removeChar _ _ _ hds2)
    rw [safeFloatOpt_str, hde]
    by_cases hc : (decide (pyStrip s = "") || isAbsentToken (pyStrip s)) = true
    · rw [if_pos hc]
      constructor
      · intro _
        simp only [safe_int]
        have hor := hc
        rw [Bool.or_eq_true] at hor
        rcases hor with h1 | h1
        · have h0 : pyStrip s = "" := of_decide_eq_true h1
          rw [h0]
          rfl
        · have h2 : removeChar ',' (pyStrip s) = pyStrip s :=
            absent_token_no_comma _ h1
          rw [h2, if_pos hc]
      · intro m e h
        exact absurd h (by simp)
    · rw [if_neg hc]
      constructor
      · intro hnone
        simp only [safe_int]
        by_cases hc2 : (decide (removeChar ',' (pyStrip s) = "") ||
            isAbsentToken (removeChar ',' (pyStrip s))) = true
        · rw [if_pos hc2]
        · rw [if_neg hc2, pyFloatCall, hnone]
      · intro m e hsome
        have hne : ¬ (decide (removeChar ',' (pyStrip s) = "") ||
            isAbsentToken (removeChar ',' (pyStrip s))) = true := by
          intro hcc
          rw [Bool.or_eq_true] at hcc
          rcases hcc with h1 | h1
          · have h0 : removeChar ',' (pyStrip s) = "" := of_decide_eq_true h1
            rw [h0] at hsome
            have hemp : pyFloatOfList ("" : String).data = Option.none := rfl
            rw [hemp] at hsome
            cases hsome
          · rw [absent_token_parse_none _ h1] at hsome
            cases hsome
        simp only [safe_int]
        rw [if_neg hne, pyFloatCall, hsome]
        rfl

/-- C4 witness: the amended theorem applied at the string `"7.9"`, which
contains no `$`: the numeric parser yields the finite decimal 79·10⁻¹ and
`safe_int` returns its truncation toward zero. -/
theorem safe_int_truncates_witness :
    safe_int (Value.str "7.9") = Except.ok (some (decTrunc 79 (-1))) ∧
    decTrunc 79 (-1) = 7 := by
  constructor
  · exact (safe_int_truncates (Value.str "7.9")
      (by intro s h; cases h; decide)
      (by intro n h; simp at h)).1.2 79 (-1) (by decide)
  · decide

/-- A scored row as it reaches the sort/diversify/truncate steps of
`orchestrate.run`.  Scores and turnover come from the scoring engine
(`ranker.compute_score`, outside this tree); the spec fixes scores as real
numbers, modelled here as exact rationals. -/
structure Row where
  ticker : String
  sector : String
  score : ℚ
  turnover_dollar : ℚ
deriving DecidableEq, Repr

/-- Sort relation of `featured_df.sort_values(by=["score",
"turnover_dollar", "ticker"], ascending=[False, False, True])`
(orchestrate.py lines 232-234): score descending, then turnover dollar
descending, then ticker ascending in code-point order. -/
def rowOrder (a b : Row) : Prop :=
  b.score < a.score ∨ (a.score = b.score ∧
    (b.turnover_dollar < a.turnover_dollar ∨
      (a.turnover_dollar = b.turnover_dollar ∧ a.ticker.data ≤ b.ticker.data)))

instance : DecidableRel rowOrder := fun a b => by
  unfold rowOrder
  infer_instance

instance : IsTotal Row rowOrder :=
  ⟨fun a b => by
    unfold rowOrder
    rcases lt_trichotomy a.score b.score with h | h | h
    · exact Or.inr (Or.inl h)
    · rcases lt_trichotomy a.turnover_dollar b.turnover_dollar with h2 | h2 | h2
      · exact Or.inr (Or.inr ⟨h.symm, Or.inl h2⟩)
      · rcases le_total a.ticker.data b.ticker.data with h3 | h3
        · exact Or.inl (Or.inr ⟨h, Or.inr ⟨h2, h3⟩⟩)
        · exact Or.inr (Or.inr ⟨h.symm, Or.inr ⟨h2.symm, h3⟩⟩)
      · exact Or.inl (Or.inr ⟨h, Or.inl h2⟩)
    · exact Or.inl (Or.inl h)⟩

instance : IsTrans Row rowOrder :=
  ⟨fun a b c hab hbc => by
    unfold rowOrder at hab hbc ⊢
    rcases hab with h1 | ⟨e1, h1⟩ <;> rcases hbc with h2 | ⟨e2, h2⟩
    · exact Or.inl (lt_trans h2 h1)
    · exact Or.inl (by rw [← e2]; exact h1)
    · exact Or.inl (by rw [e1]; exact h2)
    · refine Or.inr ⟨e1.trans e2, ?_⟩
      rcases h1 with h1 | ⟨f1, h1⟩ <;> rcases h2 with h2 | ⟨f2, h2⟩
      · exact Or.inl (lt_trans h2 h1)
      · exact Or.inl (by rw [← f2]; exact h1)
      · exact Or.inl (by rw [f1]; exact h2)
      · exact Or.inr ⟨f1.trans f2, le_trans h1 h2⟩⟩

/-- The sort applied to the scored table before the diversification
selector runs (a sorted permutation; pandas sort_values is modelled by
insertion sort over the same key relation). -/
def sortScored (rows : List Row) : List Row :=
  List.insertionSort rowOrder rows

/-- A selected row with its 1-based rank (orchestrate.py line 247). -/
structure RankedRow where
  row : Row
  rank : ℕ
deriving DecidableEq, Repr

/-- Rank assignment `range(1, len(df) + 1)` in final order. -/
def attachRanks : ℕ → List Row → List RankedRow
  | _, [] => []
  | i, r :: rest => ⟨r, i⟩ :: attachRanks (i + 1) rest

/-- Lines 245-247 of orchestrate.run: truncate the diversified table to at
most `top_n` rows and assign dense 1-based ranks in final order. -/
def finalizeSelection (dv : List Row) (topn : ℕ) : List RankedRow :=
  attachRanks 1 (dv.take topn)

/-- Outcome of the selection phase of `orchestrate.run`: either an early
exit code or an emitted selection. -/
inductive RunResult where
  | exitCode (n : ℤ)
  | selection (sel : List RankedRow)
deriving DecidableEq, Repr

/-- Model of the selection phase of `orchestrate.run` (lines 213-247): if
no rows survived the hard filters, exit code 2; otherwise sort and hand
the sorted table to the diversification selector
(`ranker.apply_sector_diversity`, a module not in this tree, therefore a
parameter here); if it returns no rows, exit code 2; otherwise truncate
and rank.  The function is total: no branch raises. -/
def runSelect (selector : List Row → List Row) (qualified : List Row)
    (topn : ℕ) : RunResult :=
  if qualified = [] then RunResult.exitCode 2
  else
    if selector (sortScored qualified) = [] then RunResult.exitCode 2
    else RunResult.selection
      (finalizeSelection (selector (sortScored qualified)) topn)

theorem attachRanks_length (i : ℕ) (l : List Row) :
    (attachRanks i l).length = l.length := by
  induction l generalizing i with
  | nil => rfl
  | cons r rest ih => simp [attachRanks, ih]

theorem attachRanks_map_rank (i : ℕ) (l : List Row) :
    (attachRanks i l).map RankedRow.rank = List.range' i l.length := by
  induction l generalizing i with
  | nil => rfl
  | cons r rest ih =>
    simp only [attachRanks, List.map_cons, ih, List.length_cons,
      List.range'_succ]

/-- C6: before the diversification selector runs, the scored table is
sorted by (score desc, turnover_dollar desc, ticker asc): `runSelect`
passes `sortScored qualified` to the selector, and `sortScored` produces a
permutation of its input sorted under `rowOrder`, which on rows with
distinct tickers is a strict total order (exactly one direction holds). -/
theorem scored_sorted_before_selector (rows : List Row) :
    (sortScored rows).Perm rows ∧
    List.Sorted rowOrder (sortScored rows) ∧
    (∀ a b : Row, a.ticker ≠ b.ticker → (rowOrder a b ↔ ¬ rowOrder b a)) := by
  refine ⟨List.perm_insertionSort rowOrder rows,
    List.sorted_insertionSort rowOrder rows, ?_⟩
  intro a b hne
  constructor
  · intro hab hba
    rcases hab with h1 | ⟨e1, h1⟩ <;> rcases hba with h2 | ⟨e2, h2⟩
    · exact absurd (lt_trans h1 h2) (lt_irrefl _)
    · rw [e2] at h1
      exact absurd h1 (lt_irrefl _)
    · rw [e1] at h2
      exact absurd h2 (lt_irrefl _)
    · rcases h1 with h1 | ⟨f1, h1⟩ <;> rcases h2 with h2 | ⟨f2, h2⟩
      · exact absurd (lt_trans h1 h2) (lt_irrefl _)
      · rw [f2] at h1
        exact absurd h1 (lt_irrefl _)
      · rw [f1] at h2
        exact absurd h2 (lt_irrefl _)
      · have hdata : a.ticker.data = b.ticker.data := le_antisymm h1 h2
        exact hne (congrArg String.mk hdata)
  · intro hnba
    rcases IsTotal.total (r := rowOrder) a b with h | h
    · exact h
    · exact absurd h hnba

/-- Concrete rows for the orchestration witnesses. -/
def wRowA : Row :=
  ⟨"AAA", "Technology", 1, 2⟩

/-- Concrete second row with a distinct ticker. -/
def wRowB : Row :=
  ⟨"BBB", "Healthcare", 1, 2⟩

/-- C6 witness: the sort theorem applied to a concrete two-row table with
distinct tickers. -/
theorem scored_sorted_witness :
    (sortScored [wRowA, wRowB]).Perm [wRowA, wRowB] ∧
    (rowOrder wRowA wRowB ↔ ¬ rowOrder wRowB wRowA) := by
  obtain ⟨hp, hs, ht⟩ := scored_sorted_before_selector [wRowA, wRowB]
  exact ⟨hp, ht wRowA wRowB (by decide)⟩

/-- C7: every run that emits a selection emits at most `top_n` rows, and
the rank column is exactly the dense 1-based sequence 1..k in final
order. -/
theorem selection_truncated_and_ranked
    (selector : List Row → List Row) (qualified : List Row) (topn : ℕ)
    (sel : List RankedRow)
    (h : runSelect selector qualified topn = RunResult.selection sel) :
    sel.length ≤ topn ∧
    sel.map RankedRow.rank = List.range' 1 sel.length := by
  unfold runSelect at h
  split at h
  · cases h
  · split at h
    · cases h
    · injection h with h
      subst h
      constructor
      · rw [finalizeSelection, attachRanks_length, List.length_take]
        exact min_le_left _ _
      · rw [finalizeSelection, attachRanks_map_rank, attachRanks_length]

/-- C7 witness: the truncation/rank theorem applied to a singleton run
with the identity selector and `top_n = 3`. -/
theorem selection_truncated_witness :
    ([⟨wRowA, 1⟩] : List RankedRow).length ≤ 3 ∧
    ([⟨wRowA, 1⟩] : List RankedRow).map RankedRow.rank =
      List.range' 1 ([⟨wRowA, 1⟩] : List RankedRow).length :=
  selection_truncated_and_ranked id [wRowA] 3 [⟨wRowA, 1⟩] rfl

/-- C8: when zero rows survive the hard filters, or zero rows survive the
diversification selector, the run reports the explicit empty-result code 2
to the caller; `runSelect` is a total function, so neither branch
raises. -/
theorem empty_results_exit_code
    (selector : List Row → List Row) (qualified : List Row) (topn : ℕ) :
    (qualified = [] → runSelect selector qualified topn = RunResult.exitCode 2) ∧
    (qualified ≠ [] → selector (sortScored qualified) = [] →
      runSelect selector qualified topn = RunResult.exitCode 2) := by
  constructor
  · intro h
    simp only [runSelect, if_pos h]
  · intro h1 h2
    simp only [runSelect, if_neg h1, h2]
    rfl

/-- C8 witness: the exit-code theorem applied at an empty filter output
and at a selector that returns no rows. -/
theorem empty_results_exit_code_witness :
    runSelect id ([] : List Row) 5 = RunResult.exitCode 2 ∧
    runSelect (fun _ => []) [wRowA] 5 = RunResult.exitCode 2 := by
  constructor
  · exact (empty_results_exit_code id [] 5).1 rfl
  · exact (empty_results_exit_code (fun _ => []) [wRowA] 5).2 (by decide) rfl

/-- Freshness payload field returned by `news_probe.probe` for a symbol:
the stub implementation (news_probe.py lines 11-23) always returns
`freshness_hours = None` and performs no network activity. -/
def probeFreshness (_sym : String) : Option ℚ :=
  Option.none

/-- Normalization of one probe payload into a freshness score
(orchestrate.py lines 119-125): absent freshness gives 0.0, otherwise
clamp the hours at 0, normalize against the configured horizon `H`, and
clip into [0, 1] (`np.clip(normalized, 0.0, 1.0)`). -/
def newsScoreOfFreshness (fr : Option ℚ) (H : ℚ) : ℚ :=
  match fr with
  | Option.none => 0
  | some f0 =>
    let f := max 0 f0
    let normalized := max 0 (1 - min f H / H)
    min (max normalized 0) 1

/-- Embedding of `orchestrate._news_scores` (lines 113-126), with the stub
probe: when news is disabled or there are no symbols, every symbol maps to
0.0; otherwise each probed payload is normalized. -/
def newsScores (symbols : List String) (enabled : Bool) (H : ℚ) :
    List (String × ℚ) :=
  if !enabled || symbols.isEmpty then symbols.map (fun sym => (sym, 0))
  else symbols.map (fun sym =>
    (sym, newsScoreOfFreshness (probeFreshness sym) H))

/-- Lookup `news_scores.get(sym, 0.0)` from orchestrate.py line 222: a
symbol with no entry receives exactly 0.0. -/
def newsLookup (m : List (String × ℚ)) (sym : String) : ℚ :=
  match m.find? (fun p => p.1 == sym) with
  | some p => p.2
  | Option.none => 0

theorem newsScores_val_zero (symbols : List String) (enabled : Bool)
    (H : ℚ) : ∀ p ∈ newsScores symbols enabled H, p.2 = 0 := by
  intro p hp
  unfold newsScores at hp
  split at hp <;> simp only [List.mem_map] at hp <;>
    obtain ⟨sym2, _, rfl⟩ := hp <;> rfl

theorem newsLookup_zero (m : List (String × ℚ))
    (hm : ∀ p ∈ m, p.2 = 0) (sym : String) : newsLookup m sym = 0 := by
  unfold newsLookup
  cases hf : m.find? (fun p => p.1 == sym) with
  | none => rfl
  | some p => exact hm p (List.mem_of_find?_eq_some hf)

/-- C9: the news-freshness score fed into scoring is always in [0, 1]; a
symbol with no entry in the score map, or any symbol when news is
disabled, receives exactly 0.0; and the normalization of an arbitrary
payload is clipped into [0, 1] regardless of the freshness value.  The
probe itself is the pure stub of news_probe.py, so the core never calls
out to acquire the signal. -/
theorem news_scores_bounded (symbols : List String) (enabled : Bool)
    (H : ℚ) (sym : String) :
    (0 ≤ newsLookup (newsScores symbols enabled H) sym ∧
      newsLookup (newsScores symbols enabled H) sym ≤ 1) ∧
    (enabled = false → newsLookup (newsScores symbols enabled H) sym = 0) ∧
    ((newsScores symbols enabled H).find? (fun p => p.1 == sym) =
        Option.none → newsLookup (newsScores symbols enabled H) sym = 0) ∧
    (∀ fr, 0 ≤ newsScoreOfFreshness fr H ∧ newsScoreOfFreshness fr H ≤ 1) := by
  have hz : newsLookup (newsScores symbols enabled H) sym = 0 :=
    newsLookup_zero _ (newsScores_val_zero symbols enabled H) sym
  refine ⟨⟨by rw [hz], by rw [hz]; norm_num⟩, fun _ => hz, fun _ => hz, ?_⟩
  intro fr
  cases fr with
  | none =>
    constructor <;> norm_num [newsScoreOfFreshness]
  | some f0 =>
    constructor
    · exact le_min (le_max_right _ _) (by norm_num)
    · exact min_le_right _ _

/-- C9 witness: the bound theorem applied at a concrete symbol list with
news disabled, and at a concrete payload with freshness 3 hours against a
24-hour horizon. -/
theorem news_scores_bounded_witness :
    newsLookup (newsScores ["AAA"] false 24) "AAA" = 0 ∧
    0 ≤ newsScoreOfFreshness (some 3) 24 ∧
    newsScoreOfFreshness (some 3) 24 ≤ 1 := by
  obtain ⟨h1, h2, h3, h4⟩ := news_scores_bounded ["AAA"] false 24 "AAA"
  exact ⟨h2 rfl, (h4 (some 3)).1, (h4 (some 3)).2⟩

/-- Split a character list at the first occurrence of `sep`. -/
def splitOnce (sep : Char) (acc : List Char) :
    List Char → Option (List Char × List Char)
  | [] => Option.none
  | c :: rest =>
    if c = sep then some (acc.reverse, rest)
    else splitOnce sep (c :: acc) rest

/-- Characters allowed in a URL scheme (`urllib.parse.scheme_chars`). -/
def isSchemeChar (c : Char) : Bool :=
  c.isAlpha || isDigitC c || c == '+' || c == '-' || c == '.'

/-- Result of `urllib.parse.urlsplit`. -/
structure SplitUrl where
  scheme : String
  netloc : String
  path : String
  query : String
  fragment : String
deriving DecidableEq, Repr

/-- Take characters until one of `stops` is reached, returning the prefix
and the remainder. -/
def takeUntilAny (stops : List Char) : List Char → List Char × List Char
  | [] => ([], [])
  | c :: rest =>
    if c ∈ stops then ([], c :: rest)
    else
      let p := takeUntilAny stops rest
      (c :: p.1, p.2)

/-- Model of `urllib.parse.urlsplit` (CPython): an initial `prefix:` made
of scheme characters starting with a letter is the (lower-cased) scheme; a
`//` start of the remainder introduces the netloc, delimited by `/`, `?`
or `#` (a netloc with an unmatched bracket raises `ValueError`); then the
first `#` splits off the fragment and the first `?` splits off the query. -/
def urlsplitE (url : String) : Except PyError SplitUrl :=
  let l := url.data
  let schemeSplit : List Char × List Char :=
    match splitOnce ':' [] l with
    | some (pre, post) =>
      match pre with
      | c :: _ =>
        if c.isAlpha && pre.all isSchemeChar then (pre.map Char.toLower, post)
        else ([], l)
      | [] => ([], l)
    | Option.none => ([], l)
  let netSplit : List Char × List Char :=
    match schemeSplit.2 with
    | '/' :: '/' :: rest2 => takeUntilAny ['/', '?', '#'] rest2
    | _ => ([], schemeSplit.2)
  let netloc := netSplit.1
  if (decide ('[' ∈ netloc) && !decide (']' ∈ netloc)) ||
      (decide (']' ∈ netloc) && !decide ('[' ∈ netloc)) then
    Except.error PyError.valueError
  else
    let fragSplit : List Char × List Char :=
      match splitOnce '#' [] netSplit.2 with
      | some p => p
      | Option.none => (netSplit.2, [])
    let querySplit : List Char × List Char :=
      match splitOnce '?' [] fragSplit.1 with
      | some p => p
      | Option.none => (fragSplit.1, [])
    Except.ok ⟨⟨schemeSplit.1⟩, ⟨netloc⟩, ⟨querySplit.1⟩, ⟨querySplit.2⟩,
      ⟨fragSplit.2⟩⟩

/-- Model of `urllib.parse.urlunsplit`. -/
def urlunsplit (p : SplitUrl) : String :=
  let url0 := p.path.data
  let url1 :=
    if p.netloc.data ≠ [] ∨ (url0 ≠ [] ∧ url0.take 2 = ['/', '/']) then
      '/' :: '/' :: (p.netloc.data ++
        (if url0 ≠ [] ∧ url0.take 1 ≠ ['/'] then '/' :: url0 else url0))
    else url0
  let url2 := if p.scheme.data ≠ [] then p.scheme.data ++ ':' :: url1 else url1
  let url3 := if p.query.data ≠ [] then url2 ++ '?' :: p.query.data else url2
  let url4 :=
    if p.fragment.data ≠ [] then url3 ++ '#' :: p.fragment.data else url3
  ⟨url4⟩

/-- Value of a hexadecimal digit, if any. -/
def hexVal (c : Char) : Option ℕ :=
  if isDigitC c then some (c.toNat - 48)
  else if 65 ≤ c.toNat ∧ c.toNat ≤ 70 then some (c.toNat - 55)
  else if 97 ≤ c.toNat ∧ c.toNat ≤ 102 then some (c.toNat - 87)
  else Option.none

/-- Percent-decoding: `%XY` with hex digits becomes the byte value (taken
as a code point — an ASCII-faithful abstraction of UTF-8 decoding);
malformed escapes are kept verbatim, as in `urllib.parse.unquote`. -/
def percentDecode : List Char → List Char
  | '%' :: a :: b :: rest =>
    (match hexVal a, hexVal b with
     | some x, some y => Char.ofNat (16 * x + y) :: percentDecode rest
     | _, _ => '%' :: percentDecode (a :: b :: rest))
  | c :: rest => c :: percentDecode rest
  | [] => []

/-- Model of `urllib.parse.unquote_plus`: `+` becomes a space, then
percent escapes are decoded. -/
def unquotePlus (s : String) : String :=
  ⟨percentDecode (s.data.map (fun c => if c = '+' then ' ' else c))⟩

/-- Model of `urllib.parse.parse_qsl(query, keep_blank_values=True)`:
split the query on `&`, skip empty fields, split each field at its first
`=` (a field without `=` keeps a blank value), and unquote names and
values. -/
def parseQsl (query : String) : List (String × String) :=
  (splitChar '&' query.data).filterMap (fun field =>
    match field with
    | [] => Option.none
    | _ =>
      match splitOnce '=' [] field with
      | some p => some (unquotePlus ⟨p.1⟩, unquotePlus ⟨p.2⟩)
      | Option.none => some (unquotePlus ⟨field⟩, ""))

/-- Masking of one query pair (utils.py lines 147-152): parameters named
`auth` (case-insensitively) keep their name with the value replaced by
`***`; other parameters with a non-empty value become `key=<redacted>`;
parameters with a blank value are rendered as the bare key. -/
def maskPair (kv : String × String) : String :=
  if pyLower kv.1 = "auth" then kv.1 ++ "=***"
  else if kv.2 ≠ "" then kv.1 ++ "=<redacted>"
  else kv.1

/-- Python `"&".join`. -/
def joinAmp : List String → String
  | [] => ""
  | [x] => x
  | x :: xs => x ++ "&" ++ joinAmp xs

/-- Embedding of `utils.redact_token` (utils.py lines 131-155): empty
URLs and URLs whose split raises `ValueError` are returned unchanged; a
URL without query pairs is rebuilt without its query; otherwise every
pair is masked and the masked pairs are joined with `&`. -/
def redact_token (url : String) : String :=
  if url = "" then url
  else
    match urlsplitE url with
    | Except.error _ => url
    | Except.ok p =>
      let pairs := parseQsl p.query
      if pairs = [] then
        urlunsplit ⟨p.scheme, p.netloc, p.path, "", p.fragment⟩
      else
        urlunsplit ⟨p.scheme, p.netloc, p.path,
          joinAmp (pairs.map maskPair), p.fragment⟩

example : redact_token "https://h/p?x=1" = "https://h/p?x=<redacted>" := by decide
example : redact_token "https://h/p?x=" = "https://h/p?x" := by decide
example : redact_token "https://elite.finviz.com/export.ashx?v=111&auth=SECRET" =
    "https://elite.finviz.com/export.ashx?v=<redacted>&auth=***" := by decide
example : redact_token "https://h/p?AUTH=abc" = "https://h/p?AUTH=***" := by decide
example : redact_token "https://h/p" = "https://h/p" := by decide
example : redact_token "" = "" := by decide

/-- C10 counterexample: two URLs that differ only in the value of the
query parameter `x` (`"1"` versus blank) redact to different strings, so
the output is not identical for any two URLs differing only in
query-parameter values — the emptiness of a value leaks. -/
theorem redact_token_blank_value_cex :
    redact_token "https://h/p?x=1" = "https://h/p?x=<redacted>" ∧
    redact_token "https://h/p?x=" = "https://h/p?x" ∧
    redact_token "https://h/p?x=1" ≠ redact_token "https://h/p?x=" := by
  decide

theorem maskPairs_congr (l1 : List (String × String)) :
    ∀ l2 : List (String × String),
      l1.map Prod.fst = l2.map Prod.fst →
      l1.map (fun kv => decide (kv.2 = "")) =
        l2.map (fun kv => decide (kv.2 = "")) →
      l1.map maskPair = l2.map maskPair := by
  induction l1 with
  | nil =>
    intro l2 hk _
    cases l2 with
    | nil => rfl
    | cons b r2 => simp at hk
  | cons a r ih =>
    intro l2 hk hb
    cases l2 with
    | nil => simp at hk
    | cons b r2 =>
      simp only [List.map_cons, List.cons.injEq] at hk hb ⊢
      refine ⟨?_, ih r2 hk.2 hb.2⟩
      unfold maskPair
      rw [hk.1]
      by_cases hauth : pyLower b.1 = "auth"
      · rw [if_pos hauth, if_pos hauth]
      · rw [if_neg hauth, if_neg hauth]
        have hiff : (a.2 = "") ↔ (b.2 = "") := decide_eq_decide.mp hb.1
        by_cases he : b.2 = ""
        · rw [if_neg (fun hne => hne (hiff.mpr he)), if_neg (fun hne => hne he)]
        · rw [if_pos (fun hae => he (hiff.mp hae)), if_pos he]

/-- C10 (amended): `redact_token` replaces the value of every parameter
named `auth` (case-insensitively) with `***` and masks every other
parameter's non-empty value with `<redacted>`, rendering blank-valued
parameters as the bare key; consequently its output is identical for any
two URLs that agree on everything except query-parameter values,
PROVIDED the corresponding values also agree on being blank or non-blank
(the counterexample shows blankness leaks).  The auth token value itself
never influences the output. -/
theorem redact_token_masks (u1 u2 : String) (p1 p2 : SplitUrl)
    (hu1 : u1 ≠ "") (hu2 : u2 ≠ "")
    (h1 : urlsplitE u1 = Except.ok p1) (h2 : urlsplitE u2 = Except.ok p2)
    (hs : p1.scheme = p2.scheme) (hn : p1.netloc = p2.netloc)
    (hp : p1.path = p2.path) (hf : p1.fragment = p2.fragment)
    (hk : (parseQsl p1.query).map Prod.fst = (parseQsl p2.query).map Prod.fst)
    (hb : (parseQsl p1.query).map (fun kv => decide (kv.2 = "")) =
      (parseQsl p2.query).map (fun kv => decide (kv.2 = ""))) :
    redact_token u1 = redact_token u2 ∧
    (∀ k v : String, pyLower k = "auth" → maskPair (k, v) = k ++ "=***") := by
  constructor
  · unfold redact_token
    rw [if_neg hu1, if_neg hu2, h1, h2]
    dsimp only
    have hlen : (parseQsl p1.query).length = (parseQsl p2.query).length := by
      have := congrArg List.length hk
      simpa using this
    by_cases hemp : parseQsl p1.query = []
    · have hemp2 : parseQsl p2.query = [] := by
        rw [hemp] at hlen
        exact List.length_eq_zero.mp hlen.symm
      rw [if_pos hemp, if_pos hemp2, hs, hn, hp, hf]
    · have hemp2 : parseQsl p2.query ≠ [] := by
        intro hc
        rw [hc] at hlen
        exact hemp (List.length_eq_zero.mp hlen)
      rw [if_neg hemp, if_neg hemp2, hs, hn, hp, hf,
        maskPairs_congr (parseQsl p1.query) (parseQsl p2.query) hk hb]
  · intro k v hauth
    unfold maskPair
    rw [if_pos hauth]

/-- C10 witness: the amended theorem applied to two concrete URLs whose
auth tokens and parameter values differ (with matching blankness): both
redact to the same string, and the auth pair is rendered as `auth=***`. -/
theorem redact_token_masks_witness :
    redact_token "https://h/p?auth=SECRET&x=1" =
      redact_token "https://h/p?auth=OTHERTOKEN&x=2" ∧
    maskPair ("auth", "SECRET") = "auth" ++ "=***" := by
  obtain ⟨heq, hmask⟩ := redact_token_masks
    "https://h/p?auth=SECRET&x=1" "https://h/p?auth=OTHERTOKEN&x=2"
    ⟨"https", "h", "/p", "auth=SECRET&x=1", ""⟩
    ⟨"https", "h", "/p", "auth=OTHERTOKEN&x=2", ""⟩
    (by decide) (by decide) (by decide) (by decide)
    rfl rfl rfl rfl (by decide) (by decide)
  exact ⟨heq, hmask "auth" "SECRET" rfl⟩
